import Mathlib

/-
  Shallow embedding of src/templates/logic/src/converter.ts
  (class TypeScriptToCairoConverter).

  The converter consumes a TypeScript syntax tree produced by an external
  front-end parser; we embed the tree shape the converter inspects as the
  inductive type Ast below.  Node kinds the converter never discriminates
  are collapsed into the otherNode constructor, which keeps its raw source
  text (the converter reads source text verbatim through getText) and its
  children (traversals descend through every child, mirroring
  ts.forEachChild).  Type annotations and names are kept as the literal
  text the converter reads from them.
-/

namespace Converter

/-- Binary operator token kinds (ts.SyntaxKind values the converter compares
against, plus representative other operators). -/
inductive BinOp where
  | equalsToken
  | plusEqualsToken
  | minusEqualsToken
  | starEqualsToken
  | plusToken
  | minusToken
  | lessThanToken
  | equalsEqualsToken
  deriving Repr, DecidableEq

/-- Source text of an operator token, used by getText. -/
def opText : BinOp → String
  | .equalsToken => "="
  | .plusEqualsToken => "+="
  | .minusEqualsToken => "-="
  | .starEqualsToken => "*="
  | .plusToken => "+"
  | .minusToken => "-"
  | .lessThanToken => "<"
  | .equalsEqualsToken => "=="

/-- The syntax-tree shape inspected by the converter.  A method parameter is
kept as its name text together with its optional type-annotation text, since
the converter only ever reads those two pieces of a parameter node.  A class
name is optional (anonymous classes); a method body is optional (ambient or
abstract style declarations have node.body undefined). -/
inductive Ast where
  | classDecl (name : Option String) (members : List Ast)
  | propertyDecl (name : String) (ty : Option String) (ini : Option Ast)
  | methodDecl (name : String) (decorators : List Ast)
      (params : List (String × Option String)) (retTy : Option String)
      (body : Option Ast)
  | binaryExpr (left : Ast) (op : BinOp) (right : Ast)
  | propertyAccess (expr : Ast) (name : String)
  | thisKeyword
  | identifier (text : String)
  | numericLiteral (text : String)
  | returnStmt (expr : Option Ast)
  | block (stmts : List Ast)
  | exprStmt (expr : Ast)
  | otherNode (text : String) (children : List Ast)
  deriving Repr

/-- Source text of a node (ts Node.getText).  The converter calls getText only
on expression nodes (assignment right-hand sides) and on name or type nodes,
which we already store as text; the remaining cases are a best-effort
rendering and are never consulted by the claims. -/
def getText : Ast → String
  | .classDecl _ _ => ""
  | .propertyDecl nm _ _ => nm
  | .methodDecl nm _ _ _ _ => nm
  | .binaryExpr l op r => getText l ++ " " ++ opText op ++ " " ++ getText r
  | .propertyAccess e nm => getText e ++ "." ++ nm
  | .thisKeyword => "this"
  | .identifier t => t
  | .numericLiteral t => t
  | .returnStmt none => "return;"
  | .returnStmt (some e) => "return " ++ getText e ++ ";"
  | .block _ => ""
  | .exprStmt e => getText e ++ ";"
  | .otherNode t _ => t

/- Depth-first, pre-order enumeration of a subtree: the node itself, then the
subtrees of its children in order.  This is the visit order of the recursive
visitors in the source, each of which performs its per-node action at a node
and then calls ts.forEachChild to recurse. -/
mutual
def subtree : Ast → List Ast
  | n@(.classDecl _ ms) => n :: subtreeList ms
  | n@(.propertyDecl _ _ ini) => n :: subtreeOpt ini
  | n@(.methodDecl _ decs _ _ body) => n :: (subtreeList decs ++ subtreeOpt body)
  | n@(.binaryExpr l _ r) => n :: (subtree l ++ subtree r)
  | n@(.propertyAccess e _) => n :: subtree e
  | .thisKeyword => [.thisKeyword]
  | n@(.identifier _) => [n]
  | n@(.numericLiteral _) => [n]
  | n@(.returnStmt e) => n :: subtreeOpt e
  | n@(.block ss) => n :: subtreeList ss
  | n@(.exprStmt e) => n :: subtree e
  | n@(.otherNode _ cs) => n :: subtreeList cs
def subtreeList : List Ast → List Ast
  | [] => []
  | x :: xs => subtree x ++ subtreeList xs
def subtreeOpt : Option Ast → List Ast
  | none => []
  | some x => subtree x
end

/-- Model of a JavaScript falsy-or default, s.text or a default string: the
empty string is falsy in JavaScript, so it also selects the default. -/
def jsOrDefault (s : Option String) (d : String) : String :=
  match s with
  | some t => if t = "" then d else t
  | none => d

/-- Model of the JavaScript template interpolation of an out-of-range array
index: list[i] evaluates to undefined, which interpolates as the literal text
undefined. -/
def jsIndex (l : List String) (i : Nat) : String :=
  (l.get? i).getD "undefined"

/-- Model of the JavaScript idiom spreading a Set built from a list:
first-occurrence order, duplicates removed. -/
def jsSetDedup (l : List String) : List String :=
  l.foldl (fun acc x => if x ∈ acc then acc else acc ++ [x]) []

/-- interface CairoParameter. -/
structure CairoParameter where
  name : String
  type : String
  deriving Repr, DecidableEq

/-- interface CairoStorage. -/
structure CairoStorage where
  name : String
  type : String
  deriving Repr, DecidableEq

/-- interface CairoFunction.  The visibility field is the string literal
external or internal in the source; the converter only ever stores
external. -/
structure CairoFunction where
  name : String
  parameters : List CairoParameter
  returnType : String
  visibility : String
  body : List String
  isView : Bool
  deriving Repr, DecidableEq

/-- interface CairoContract. -/
structure CairoContract where
  name : String
  storage : List CairoStorage
  functions : List CairoFunction
  deriving Repr, DecidableEq

/-- The record pushed by extractStateModifications.  The source names the
second field variable, which is a reserved word in Lean, so it is varName
here; the type field is the string literal assignment in every record the
source builds. -/
structure StateModification where
  type : String
  varName : String
  expression : String
  deriving Repr, DecidableEq

/-- The typeMap built in the constructor. -/
def typeMap : List (String × String) :=
  [("number", "felt252"), ("string", "felt252"),
   ("boolean", "bool"), ("bigint", "u256")]

/-- convertType: this.typeMap.get(typeNode.getText()) with fallback felt252.
The argument is the literal text of the type annotation. -/
def convertType (t : String) : String :=
  (List.lookup t typeMap).getD "felt252"

/-- The contract record initialized in the constructor. -/
def initialContract : CairoContract :=
  { name := "", storage := [], functions := [] }

/-- hasViewDecorator: some decorator expression is the identifier view.  The
argument is the decorator expression list of the method. -/
def hasViewDecorator (decorators : List Ast) : Bool :=
  decorators.any fun e =>
    match e with
    | .identifier t => t == "view"
    | _ => false

/-- Per-node action of the findStateVariableAccess visitor: a property-access
expression whose base expression is the this keyword contributes the accessed
member name. -/
def stateAccessOf : Ast → Option String
  | .propertyAccess .thisKeyword nm => some nm
  | _ => none

/-- findStateVariableAccess: the visitor pushes the member name at every
matching node in depth-first pre-order (action at the node, then recursion
into every child), and the result is the spread of a Set built from the
pushed list, i.e. first-occurrence order with duplicates removed. -/
def findStateVariableAccess (n : Ast) : List String :=
  jsSetDedup ((subtree n).filterMap stateAccessOf)

/-- Per-node action of the extractStateModifications visitor: a binary
expression whose left operand is a property access on the this keyword is
recorded, whatever its operator token is.  PlusEqualsToken and
MinusEqualsToken synthesize a read-then-combine expression from the literal
right-hand-side text; every other operator falls into the else branch, which
takes the literal right-hand-side text as the expression. -/
def stateModificationOf : Ast → Option StateModification
  | .binaryExpr (.propertyAccess .thisKeyword v) op r =>
      some { type := "assignment", varName := v,
             expression :=
               match op with
               | .plusEqualsToken => "self." ++ v ++ ".read() + " ++ getText r
               | .minusEqualsToken => "self." ++ v ++ ".read() - " ++ getText r
               | _ => getText r }
  | _ => none

/-- extractStateModifications: the visitor pushes a record at every matching
node in depth-first pre-order. -/
def extractStateModifications (n : Ast) : List StateModification :=
  (subtree n).filterMap stateModificationOf

/-- Node-kind test used by hasReturnStatement. -/
def isReturnStatement : Ast → Bool
  | .returnStmt _ => true
  | _ => false

/-- hasReturnStatement: the visitor sets a flag at a return statement and
stops descending once the flag is set; the boolean result is exactly whether
some return statement exists anywhere in the subtree. -/
def hasReturnStatement (n : Ast) : Bool :=
  (subtree n).any isReturnStatement

/-- analyzeFunctionBody.  An absent body returns the empty list at once.
Otherwise the state-variable list is computed first; a view method emits one
read of index zero of that list; a non-view method emits one write per
extracted modification whose type field is the string assignment (which all
of them are), in order, then appends a read of index zero of the
state-variable list when the body holds a return statement. -/
def analyzeFunctionBody (body : Option Ast) (isView : Bool) : List String :=
  match body with
  | none => []
  | some b =>
    let stateVars := findStateVariableAccess b
    if isView then
      ["self." ++ jsIndex stateVars 0 ++ ".read()"]
    else
      let modifications := extractStateModifications b
      let writes := modifications.foldl
        (fun acc m =>
          if m.type == "assignment" then
            acc ++ ["self." ++ m.varName ++ ".write(" ++ m.expression ++ ");"]
          else acc) []
      writes ++
        (if hasReturnStatement b then
          ["self." ++ jsIndex stateVars 0 ++ ".read()"]
         else [])

/-- processParameters: each parameter becomes its name text and its mapped
type, felt252 when the annotation is absent. -/
def processParameters (params : List (String × Option String)) :
    List CairoParameter :=
  params.map fun p =>
    { name := p.1,
      type := match p.2 with | some t => convertType t | none => "felt252" }

/-- processMember on a method declaration: name text, mapped parameters,
mapped return type with felt252 fallback, visibility external, the analyzed
body, and the view flag.  Non-method nodes yield none (the caller only
invokes it on method declarations); the source guard on a missing name never
fires because a parsed method declaration always carries a name. -/
def processMember : Ast → Option CairoFunction
  | .methodDecl nm decs ps retTy body =>
      some { name := nm,
             parameters := processParameters ps,
             returnType :=
               match retTy with | some t => convertType t | none => "felt252",
             visibility := "external",
             body := analyzeFunctionBody body (hasViewDecorator decs),
             isView := hasViewDecorator decs }
  | _ => none

/-- The storage entry pushed by the property pass of processClass: name text
and mapped type with felt252 fallback. -/
def propertyStorage : Ast → Option CairoStorage
  | .propertyDecl nm ty _ =>
      some { name := nm,
             type := match ty with | some t => convertType t | none => "felt252" }
  | _ => none

/-- processClass: one pass appends a storage entry per property declaration
among the class members, in member order, then a second pass appends a
function per method declaration, in member order.  Non-class nodes are left
untouched (the caller only invokes it on class declarations). -/
def processClass (c : CairoContract) : Ast → CairoContract
  | .classDecl _ ms =>
      { c with
        storage := c.storage ++ ms.filterMap propertyStorage,
        functions := c.functions ++ ms.filterMap processMember }
  | _ => c

/-- Node-kind test of processNode. -/
def isClassDeclaration : Ast → Bool
  | .classDecl _ _ => true
  | _ => false

/-- The contract name assigned when processNode meets a class declaration:
node.name?.text with the JavaScript falsy fallback Contract. -/
def classContractName : Ast → String
  | .classDecl nm _ => jsOrDefault nm "Contract"
  | _ => ""

/-- The action processNode performs at one visited node: at a class
declaration it assigns the contract name and runs processClass; at every
other node it does nothing. -/
def processNodeStep (c : CairoContract) (nd : Ast) : CairoContract :=
  if isClassDeclaration nd then
    processClass { c with name := classContractName nd } nd
  else c

/-- processNode: the recursive visitor performs its action at the node and
then recurses into every child, i.e. it folds the step over the depth-first
pre-order node enumeration. -/
def processNode (c : CairoContract) (n : Ast) : CairoContract :=
  (subtree n).foldl processNodeStep c

/-- The contract model built by convert before code generation: processNode
run on the whole source file starting from the constructor-initialized
contract. -/
def convertModel (sourceFile : Ast) : CairoContract :=
  processNode initialContract sourceFile

/-- generateStorageVariables. -/
def generateStorageVariables (c : CairoContract) : String :=
  String.intercalate ",\n"
    (c.storage.map fun s => "        " ++ s.name ++ ": " ++ s.type)

/-- generateInterfaceFunctions.  The filter models the JavaScript
filter(Boolean) dropping the empty parameter string. -/
def generateInterfaceFunctions (c : CairoContract) : String :=
  String.intercalate "\n"
    (c.functions.map fun f =>
      let params := String.intercalate ", "
        (f.parameters.map fun p => p.name ++ ": " ++ p.type)
      let selfParam := if f.isView then "self: @TContractState"
        else "ref self: TContractState"
      let allParams := String.intercalate ", "
        ([selfParam, params].filter fun s => s != "")
      "    fn " ++ f.name ++ "(" ++ allParams ++ ") -> " ++ f.returnType ++ ";")

/-- generateImplementationFunctions: each function renders its header, its
body lines each indented by twelve spaces, and a closing brace; functions are
joined by a blank line. -/
def generateImplementationFunctions (c : CairoContract) : String :=
  String.intercalate "\n\n"
    (c.functions.map fun f =>
      let params := String.intercalate ", "
        (f.parameters.map fun p => p.name ++ ": " ++ p.type)
      let selfParam := if f.isView then "self: @ContractState"
        else "ref self: ContractState"
      let allParams := String.intercalate ", "
        ([selfParam, params].filter fun s => s != "")
      String.intercalate "\n"
        (["        fn " ++ f.name ++ "(" ++ allParams ++ ") -> "
            ++ f.returnType ++ " \x7b"]
          ++ f.body.map (fun line => "            " ++ line)
          ++ ["        \x7d"]))

/-- generateCairoCode: the fixed line skeleton joined by newlines. -/
def generateCairoCode (c : CairoContract) : String :=
  String.intercalate "\n"
    [ "#[starknet::interface]",
      "pub trait I" ++ c.name ++ "<TContractState> \x7b",
      generateInterfaceFunctions c,
      "\x7d",
      "",
      "#[starknet::contract]",
      "mod " ++ c.name ++ " \x7b",
      "    use core::starknet::storage::\x7bStoragePointerReadAccess, StoragePointerWriteAccess\x7d;",
      "",
      "    #[storage]",
      "    struct Storage \x7b",
      generateStorageVariables c,
      "    \x7d",
      "",
      "    #[abi(embed_v0)]",
      "    impl " ++ c.name ++ "Impl of super::I" ++ c.name ++ "<ContractState> \x7b",
      generateImplementationFunctions c,
      "    \x7d",
      "\x7d" ]

/-- convert: build the model by processNode, then render it. -/
def convert (sourceFile : Ast) : String :=
  generateCairoCode (convertModel sourceFile)

/-- DFS pre-order list of the class declarations the processNode visitor
meets. -/
def collectClasses (n : Ast) : List Ast :=
  (subtree n).filter isClassDeclaration

/-- Storage entries a single visited class declaration appends. -/
def classStorageFields : Ast → List CairoStorage
  | .classDecl _ ms => ms.filterMap propertyStorage
  | _ => []

/-- Functions a single visited class declaration appends. -/
def classFunctions : Ast → List CairoFunction
  | .classDecl _ ms => ms.filterMap processMember
  | _ => []

/-- Last-wins contract name over a class list, with an explicit default for
the empty list. -/
def lastContractName : List Ast → String → String
  | [], d => d
  | c :: cs, _ => lastContractName cs (classContractName c)

/-- Following the words of claim C2 (not the source): a mutation is detected
only when the operator token is plain assignment, add-assign or
subtract-assign; any other operator is invisible.  Declared to compare the
claim against the source extractor. -/
def claimMutationOf : Ast → Option StateModification
  | n@(.binaryExpr (.propertyAccess .thisKeyword _) op _) =>
      match op with
      | .equalsToken | .plusEqualsToken | .minusEqualsToken =>
          stateModificationOf n
      | _ => none
  | _ => none

/-- Following the words of claim C2 (not the source): the instruction list the
claim prescribes for a non-view method body: one write per recognized
mutation, in order, then a trailing read iff a return statement exists. -/
def claimMutatingInstructions (b : Ast) : List String :=
  ((subtree b).filterMap claimMutationOf).map
    (fun m => "self." ++ m.varName ++ ".write(" ++ m.expression ++ ");")
  ++ (if hasReturnStatement b then
        ["self." ++ jsIndex (findStateVariableAccess b) 0 ++ ".read()"]
      else [])

lemma processNodeStep_storage (c : CairoContract) (x : Ast) :
    (processNodeStep c x).storage = c.storage ++ classStorageFields x := by
  cases x <;>
    simp [processNodeStep, isClassDeclaration, processClass, classStorageFields]

lemma processNodeStep_functions (c : CairoContract) (x : Ast) :
    (processNodeStep c x).functions = c.functions ++ classFunctions x := by
  cases x <;>
    simp [processNodeStep, isClassDeclaration, processClass, classFunctions]

lemma foldl_processNodeStep_storage (nodes : List Ast) (c : CairoContract) :
    (nodes.foldl processNodeStep c).storage
      = c.storage ++ nodes.flatMap classStorageFields := by
  induction nodes generalizing c with
  | nil => simp
  | cons x xs ih =>
    rw [List.foldl_cons, ih, List.flatMap_cons, processNodeStep_storage,
      List.append_assoc]

lemma foldl_processNodeStep_functions (nodes : List Ast) (c : CairoContract) :
    (nodes.foldl processNodeStep c).functions
      = c.functions ++ nodes.flatMap classFunctions := by
  induction nodes generalizing c with
  | nil => simp
  | cons x xs ih =>
    rw [List.foldl_cons, ih, List.flatMap_cons, processNodeStep_functions,
      List.append_assoc]

lemma foldl_processNodeStep_name (nodes : List Ast) (c : CairoContract) :
    (nodes.foldl processNodeStep c).name
      = lastContractName (nodes.filter isClassDeclaration) c.name := by
  induction nodes generalizing c with
  | nil => rfl
  | cons x xs ih =>
    rw [List.foldl_cons, ih]
    by_cases h : isClassDeclaration x = true
    · rw [List.filter_cons_of_pos h, lastContractName]
      have hn : (processNodeStep c x).name = classContractName x := by
        cases x <;> simp_all [processNodeStep, isClassDeclaration, processClass]
      rw [hn]
    · rw [List.filter_cons_of_neg h]
      have hn : processNodeStep c x = c := by
        simp [processNodeStep, h]
      rw [hn]

lemma flatMap_filter_class {α : Type} (f : Ast → List α)
    (hf : ∀ n, isClassDeclaration n = false → f n = []) (l : List Ast) :
    (l.filter isClassDeclaration).flatMap f = l.flatMap f := by
  induction l with
  | nil => rfl
  | cons x xs ih =>
    by_cases h : isClassDeclaration x = true
    · rw [List.filter_cons_of_pos h, List.flatMap_cons, List.flatMap_cons, ih]
    · rw [List.filter_cons_of_neg h, List.flatMap_cons, ih,
        hf x (Bool.not_eq_true _ ▸ h), List.nil_append]

lemma classStorageFields_of_not_class (n : Ast)
    (h : isClassDeclaration n = false) : classStorageFields n = [] := by
  cases n <;> simp_all [isClassDeclaration, classStorageFields]

lemma classFunctions_of_not_class (n : Ast)
    (h : isClassDeclaration n = false) : classFunctions n = [] := by
  cases n <;> simp_all [isClassDeclaration, classFunctions]

lemma convertModel_storage (tree : Ast) :
    (convertModel tree).storage
      = (collectClasses tree).flatMap classStorageFields := by
  rw [convertModel, processNode, foldl_processNodeStep_storage, collectClasses,
    flatMap_filter_class classStorageFields classStorageFields_of_not_class]
  rfl

lemma convertModel_functions (tree : Ast) :
    (convertModel tree).functions
      = (collectClasses tree).flatMap classFunctions := by
  rw [convertModel, processNode, foldl_processNodeStep_functions, collectClasses,
    flatMap_filter_class classFunctions classFunctions_of_not_class]
  rfl

lemma convertModel_name (tree : Ast) :
    (convertModel tree).name = lastContractName (collectClasses tree) "" := by
  rw [convertModel, processNode, foldl_processNodeStep_name, collectClasses]
  rfl

lemma stateModificationOf_type (a : Ast) (m : StateModification)
    (ha : stateModificationOf a = some m) : m.type = "assignment" := by
  unfold stateModificationOf at ha
  split at ha
  · rw [← Option.some.inj ha]
  · exact absurd ha (by simp)

lemma extractStateModifications_type (b : Ast) :
    ∀ m ∈ extractStateModifications b, m.type = "assignment" := by
  intro m hm
  rw [extractStateModifications, List.mem_filterMap] at hm
  obtain ⟨a, -, ha⟩ := hm
  exact stateModificationOf_type a m ha

lemma foldl_writes (mods : List StateModification) :
    ∀ ini : List String, (∀ m ∈ mods, m.type = "assignment") →
    mods.foldl
      (fun acc m =>
        if m.type == "assignment" then
          acc ++ ["self." ++ m.varName ++ ".write(" ++ m.expression ++ ");"]
        else acc) ini
      = ini ++ mods.map
          (fun m => "self." ++ m.varName ++ ".write(" ++ m.expression ++ ");") := by
  induction mods with
  | nil => intro ini _; simp
  | cons m ms ih =>
    intro ini h
    rw [List.foldl_cons, List.map_cons]
    have hm : (m.type == "assignment") = true := by
      simp [h m (List.mem_cons_self m ms)]
    rw [if_pos hm, ih _ (fun x hx => h x (List.mem_cons_of_mem m hx)),
      List.append_assoc]
    rfl

/-- The non-view branch of analyzeFunctionBody: one write per extracted
modification, in order, then a trailing read of index zero of the
state-variable list iff the body holds a return statement. -/
lemma analyzeFunctionBody_mutating (b : Ast) :
    analyzeFunctionBody (some b) false
      = (extractStateModifications b).map
          (fun m => "self." ++ m.varName ++ ".write(" ++ m.expression ++ ");")
        ++ (if hasReturnStatement b then
              ["self." ++ jsIndex (findStateVariableAccess b) 0 ++ ".read()"]
            else []) := by
  rw [analyzeFunctionBody]
  simp only [Bool.false_eq_true, if_false]
  rw [foldl_writes (extractStateModifications b) []
    (extractStateModifications_type b), List.nil_append]

/-- Concrete input for claim C1: the statement this.x *= 2, a compound
operator outside the recognized set. -/
def c1exampleNode : Ast :=
  .exprStmt (.binaryExpr (.propertyAccess .thisKeyword "x") .starEqualsToken
    (.numericLiteral "2"))

/-- Concrete input for claim C2: a method body whose only statement is the
comparison this.x < 5, with no return statement. -/
def c2exampleBody : Ast :=
  .block [.exprStmt (.binaryExpr (.propertyAccess .thisKeyword "x")
    .lessThanToken (.numericLiteral "5"))]

/-- Concrete input for claim C4: a source file holding two class
declarations. -/
def c4exampleTree : Ast :=
  .otherNode ""
    [.classDecl (some "A") [.propertyDecl "x" (some "number") none],
     .classDecl (some "B") [.propertyDecl "y" (some "boolean") none]]

/-- Concrete input for claim C8: the body this.balance += amount; return
this.balance. -/
def c8scenarioBody : Ast :=
  .block
    [.exprStmt (.binaryExpr (.propertyAccess .thisKeyword "balance")
       .plusEqualsToken (.identifier "amount")),
     .returnStmt (some (.propertyAccess .thisKeyword "balance"))]

/-- Claim C1 is false on the code: the statement this.x *= 2 does produce a
mutation entry (the else branch of the extractor treats the unmatched
operator like plain assignment, taking the literal right-hand text 2 as the
expression), and a write instruction is emitted for it. -/
theorem C1_counterexample :
    extractStateModifications c1exampleNode
      = [{ type := "assignment", varName := "x", expression := "2" }] ∧
    extractStateModifications c1exampleNode ≠ [] ∧
    analyzeFunctionBody (some c1exampleNode) false = ["self.x.write(2);"] :=
  ⟨by decide, by decide, by decide⟩

/-- C1 amended: for every binary expression whose left operand is a member
access on the instance reference and whose operator is neither add-assign nor
subtract-assign (multiply-assign, comparisons, plain assignment, ...), the
Body Analyzer produces one mutation entry whose expression is the literal
right-hand-side text, and one write instruction of that expression is emitted
for it. -/
theorem C1_amended_other_operators_assign (v rtext : String) (op : BinOp)
    (h1 : op ≠ BinOp.plusEqualsToken) (h2 : op ≠ BinOp.minusEqualsToken) :
    extractStateModifications
        (.binaryExpr (.propertyAccess .thisKeyword v) op (.identifier rtext))
      = [{ type := "assignment", varName := v, expression := rtext }] ∧
    analyzeFunctionBody
        (some (.exprStmt (.binaryExpr (.propertyAccess .thisKeyword v) op
          (.identifier rtext)))) false
      = ["self." ++ v ++ ".write(" ++ rtext ++ ");"] := by
  cases op <;> first
    | exact absurd rfl h1
    | exact absurd rfl h2
    | exact ⟨rfl, rfl⟩

/-- Witness for the amended claim C1 at the concrete operator *= with left
operand this.x and right operand 2. -/
theorem C1_amended_witness :
    extractStateModifications
        (.binaryExpr (.propertyAccess .thisKeyword "x") .starEqualsToken
          (.identifier "2"))
      = [{ type := "assignment", varName := "x", expression := "2" }] ∧
    analyzeFunctionBody
        (some (.exprStmt (.binaryExpr (.propertyAccess .thisKeyword "x")
          .starEqualsToken (.identifier "2")))) false
      = ["self.x.write(2);"] :=
  C1_amended_other_operators_assign "x" "2" .starEqualsToken
    (by decide) (by decide)

/-- Claim C2 is false on the code: for the non-view method body holding only
the comparison this.x < 5 and no return statement, the claim prescribes zero
write instructions (no assignment, add-assign or subtract-assign is present),
but the code synthesizes a write of x with expression 5. -/
theorem C2_counterexample :
    analyzeFunctionBody (some c2exampleBody) false = ["self.x.write(5);"] ∧
    claimMutatingInstructions c2exampleBody = [] ∧
    analyzeFunctionBody (some c2exampleBody) false
      ≠ claimMutatingInstructions c2exampleBody :=
  ⟨by decide, by decide, by decide⟩

/-- C2 amended: for every method not annotated as view, the synthesized
instruction list consists of one write instruction per extracted mutation
(one per binary expression whose left operand is a member access on the
instance reference, whatever its operator), in the order those expressions
appear in the body, followed by one trailing read instruction of index zero
of the state-access list iff the body contains at least one return statement
anywhere. -/
theorem C2_amended_mutating_instructions (b : Ast) :
    analyzeFunctionBody (some b) false
      = (extractStateModifications b).map
          (fun m => "self." ++ m.varName ++ ".write(" ++ m.expression ++ ");")
        ++ (if hasReturnStatement b then
              ["self." ++ jsIndex (findStateVariableAccess b) 0 ++ ".read()"]
            else []) :=
  analyzeFunctionBody_mutating b

/-- C3: for every method annotated with a view decorator whose body accesses
at least one member on the instance reference, the synthesized instruction
list is exactly one read of the first distinct accessed name, in
first-occurrence order. -/
theorem C3_view_reads_first_access (nm : String) (decs : List Ast)
    (ps : List (String × Option String)) (retTy : Option String)
    (b : Ast) (x : String) (xs : List String)
    (hview : hasViewDecorator decs = true)
    (hacc : findStateVariableAccess b = x :: xs) :
    (processMember (.methodDecl nm decs ps retTy (some b))).map
        (fun f => f.body)
      = some ["self." ++ x ++ ".read()"] := by
  simp [processMember, analyzeFunctionBody, hview, hacc, jsIndex]

/-- Witness for claim C3: a concrete view method returning this.balance. -/
theorem C3_view_reads_first_access_witness :
    (processMember (.methodDecl "getBalance" [.identifier "view"] []
        (some "number")
        (some (.returnStmt (some (.propertyAccess .thisKeyword "balance")))))).map
        (fun f => f.body)
      = some ["self.balance.read()"] :=
  C3_view_reads_first_access "getBalance" [.identifier "view"] []
    (some "number") (.returnStmt (some (.propertyAccess .thisKeyword "balance")))
    "balance" [] (by decide) (by decide)

/-- Claim C4 is false on the code: with two class declarations A (field x)
and B (field y) in the tree, the model name comes from the second class and
the storage accumulates the fields of both classes, so classes after the
first do contribute. -/
theorem C4_counterexample :
    (convertModel c4exampleTree).name = "B" ∧
    (convertModel c4exampleTree).name ≠ "A" ∧
    (convertModel c4exampleTree).storage.map (fun s => s.name) = ["x", "y"] ∧
    (convertModel c4exampleTree).storage.map (fun s => s.name) ≠ ["x"] :=
  ⟨by decide, by decide, by decide, by decide⟩

/-- C4 amended: every class declaration met in the depth-first traversal
contributes: the storage list and the function list are the concatenations,
in traversal order, of the contributions of each class declaration, and the
contract name is the name of the last class declaration met (with the
placeholder Contract for an anonymous or empty name), the initial empty name
when no class exists. -/
theorem C4_amended_every_class_contributes (tree : Ast) :
    (convertModel tree).storage
      = (collectClasses tree).flatMap classStorageFields ∧
    (convertModel tree).functions
      = (collectClasses tree).flatMap classFunctions ∧
    (convertModel tree).name = lastContractName (collectClasses tree) "" :=
  ⟨convertModel_storage tree, convertModel_functions tree,
   convertModel_name tree⟩

/-- C5: the Type Mapper is total: every looked-up text either hits the fixed
table exactly or falls back to felt252; lookup is case-sensitive exact match
(Boolean misses, a text with trailing blank misses); and an emitted storage
field type is exactly this result, felt252 when the annotation is absent. -/
theorem C5_type_mapper_total :
    (∀ t, (t, convertType t) ∈ typeMap ∨ convertType t = "felt252") ∧
    (∀ t, (∀ p ∈ typeMap, t ≠ p.1) → convertType t = "felt252") ∧
    (convertType "number" = "felt252" ∧ convertType "string" = "felt252" ∧
     convertType "boolean" = "bool" ∧ convertType "bigint" = "u256" ∧
     convertType "Boolean" = "felt252" ∧ convertType "bigint " = "felt252" ∧
     convertType "Array<number>" = "felt252") ∧
    (∀ nm ty ini, propertyStorage (.propertyDecl nm ty ini)
        = some { name := nm, type := (ty.map convertType).getD "felt252" }) := by
  refine ⟨?_, ?_, by decide, ?_⟩
  · intro t
    by_cases h1 : t = "number"; · subst h1; left; decide
    by_cases h2 : t = "string"; · subst h2; left; decide
    by_cases h3 : t = "boolean"; · subst h3; left; decide
    by_cases h4 : t = "bigint"; · subst h4; left; decide
    right
    simp [convertType, typeMap, List.lookup, beq_eq_false_iff_ne.mpr h1,
      beq_eq_false_iff_ne.mpr h2, beq_eq_false_iff_ne.mpr h3,
      beq_eq_false_iff_ne.mpr h4]
  · intro t ht
    have h1 := ht ("number", "felt252") (by decide)
    have h2 := ht ("string", "felt252") (by decide)
    have h3 := ht ("boolean", "bool") (by decide)
    have h4 := ht ("bigint", "u256") (by decide)
    simp [convertType, typeMap, List.lookup, beq_eq_false_iff_ne.mpr h1,
      beq_eq_false_iff_ne.mpr h2, beq_eq_false_iff_ne.mpr h3,
      beq_eq_false_iff_ne.mpr h4]
  · intro nm ty ini
    cases ty <;> rfl

/-- Witness for claim C5 at the unmapped annotation text u256. -/
theorem C5_type_mapper_total_witness : convertType "u256" = "felt252" :=
  C5_type_mapper_total.2.1 "u256" (by decide)

/-- C6: the emitted storage block lists the fields, and the emitted interface
and implementation blocks list the functions, exactly in source declaration
order (the order of the property and method declarations inside each class
body, classes taken in traversal order). -/
theorem C6_emission_preserves_declaration_order (tree : Ast) :
    (convertModel tree).storage.map (fun s => s.name)
      = ((collectClasses tree).flatMap classStorageFields).map
          (fun s => s.name) ∧
    (convertModel tree).functions.map (fun f => f.name)
      = ((collectClasses tree).flatMap classFunctions).map (fun f => f.name) ∧
    generateStorageVariables (convertModel tree)
      = String.intercalate ",\n"
          (((collectClasses tree).flatMap classStorageFields).map
            fun s => "        " ++ s.name ++ ": " ++ s.type) ∧
    generateImplementationFunctions (convertModel tree)
      = String.intercalate "\n\n"
          (((collectClasses tree).flatMap classFunctions).map fun f =>
            let params := String.intercalate ", "
              (f.parameters.map fun p => p.name ++ ": " ++ p.type)
            let selfParam := if f.isView then "self: @ContractState"
              else "ref self: ContractState"
            let allParams := String.intercalate ", "
              ([selfParam, params].filter fun s => s != "")
            String.intercalate "\n"
              (["        fn " ++ f.name ++ "(" ++ allParams ++ ") -> "
                  ++ f.returnType ++ " \x7b"]
                ++ f.body.map (fun line => "            " ++ line)
                ++ ["        \x7d"])) := by
  refine ⟨by rw [convertModel_storage], by rw [convertModel_functions],
    ?_, ?_⟩
  · rw [generateStorageVariables, convertModel_storage]
  · rw [generateImplementationFunctions, convertModel_functions]

/-- C7: a source program with no class declaration converts to the degenerate
well-formed model: empty name, no storage, no functions. -/
theorem C7_no_class_degenerate_model (tree : Ast)
    (h : ∀ n ∈ subtree tree, isClassDeclaration n = false) :
    (convertModel tree).name = "" ∧ (convertModel tree).storage = [] ∧
    (convertModel tree).functions = [] := by
  have hc : collectClasses tree = [] := by
    rw [collectClasses, List.filter_eq_nil_iff]
    intro a ha
    simp [h a ha]
  refine ⟨?_, ?_, ?_⟩
  · rw [convertModel_name, hc]; rfl
  · rw [convertModel_storage, hc]; rfl
  · rw [convertModel_functions, hc]; rfl

/-- Witness for claim C7: a source file holding a lone statement and no
class declaration. -/
theorem C7_no_class_degenerate_model_witness :
    (convertModel (.block [.returnStmt none])).name = "" ∧
    (convertModel (.block [.returnStmt none])).storage = [] ∧
    (convertModel (.block [.returnStmt none])).functions = [] :=
  C7_no_class_degenerate_model (.block [.returnStmt none]) (by decide)

/-- C8: an add-assign (respectively subtract-assign) on an instance field
produces a mutation whose expression is a read of that same field combined by
+ (respectively -) with the literal right-hand-side source text; the scenario
this.balance += amount; return this.balance yields exactly a write of balance
with expression self.balance.read() + amount, then a read of balance. -/
theorem C8_compound_assign_read_combine (v : String) (r : Ast) :
    stateModificationOf
        (.binaryExpr (.propertyAccess .thisKeyword v) .plusEqualsToken r)
      = some { type := "assignment", varName := v,
               expression := "self." ++ v ++ ".read() + " ++ getText r } ∧
    stateModificationOf
        (.binaryExpr (.propertyAccess .thisKeyword v) .minusEqualsToken r)
      = some { type := "assignment", varName := v,
               expression := "self." ++ v ++ ".read() - " ++ getText r } ∧
    analyzeFunctionBody (some c8scenarioBody) false
      = ["self.balance.write(self.balance.read() + amount);",
         "self.balance.read()"] :=
  ⟨rfl, rfl, by decide⟩

/-- C9: when the state-access list is empty, consulting index zero does not
fail: the JavaScript undefined interpolates as the literal name undefined, so
a view method reads self.undefined.read(), and a non-view method whose body
returns appends the same read after its writes. -/
theorem C9_empty_access_reads_undefined (b : Ast)
    (h : findStateVariableAccess b = []) :
    analyzeFunctionBody (some b) true = ["self.undefined.read()"] ∧
    (hasReturnStatement b = true →
      analyzeFunctionBody (some b) false
        = (extractStateModifications b).map
            (fun m => "self." ++ m.varName ++ ".write(" ++ m.expression ++ ");")
          ++ ["self.undefined.read()"]) := by
  constructor
  · simp [analyzeFunctionBody, h, jsIndex]
  · intro hr
    rw [analyzeFunctionBody_mutating, hr, if_pos rfl, h]
    rfl

/-- Witness for claim C9: a body holding a bare return statement and no
instance member access. -/
theorem C9_empty_access_reads_undefined_witness :
    analyzeFunctionBody (some (.returnStmt none)) true
      = ["self.undefined.read()"] :=
  (C9_empty_access_reads_undefined (.returnStmt none) (by decide)).1

/-- C10: a method declaration without a body yields an empty instruction
list, for a view flag of either value, and the Function Model built for a
bodyless method has an empty body list. -/
theorem C10_bodyless_method_empty_instructions (nm : String)
    (decs : List Ast) (ps : List (String × Option String))
    (retTy : Option String) (isView : Bool) :
    analyzeFunctionBody none isView = [] ∧
    (processMember (.methodDecl nm decs ps retTy none)).map (fun f => f.body)
      = some [] :=
  ⟨rfl, rfl⟩

end Converter

